import Mathlib

set_option linter.unusedVariables false

/-!
Shallow embedding of the Help.Drugix catalog-update pipeline
(scripts/esklp_update.py and scripts/update_data.py).

Conventions of the embedding:
  * A raw table row is a list of (column name, cell) pairs in column order;
    a cell is an Option String, where none models a pandas NA value.
  * External collaborators that the scripts call but whose exact behaviour
    is outside the source (the md5 hex digest used by synthetic_id, the
    CPython float literal parser used for prices, pandas.to_datetime, and
    the current UTC date) are passed in as explicit function parameters.
  * Python truthiness of a string is emptiness; Python `or` on strings is
    modelled by an if on emptiness.
-/

/-- Python str.lower, restricted to the alphabets that occur in the
script dictionaries (ASCII letters plus Cyrillic А–Я and Ё). -/
def pyLowerChar (c : Char) : Char :=
  if 'A' ≤ c ∧ c ≤ 'Z' then Char.ofNat (c.toNat + 32)
  else if 'А' ≤ c ∧ c ≤ 'Я' then Char.ofNat (c.toNat + 32)
  else if c = 'Ё' then 'ё'
  else c

/-- Python str.upper, restricted likewise. -/
def pyUpperChar (c : Char) : Char :=
  if 'a' ≤ c ∧ c ≤ 'z' then Char.ofNat (c.toNat - 32)
  else if 'а' ≤ c ∧ c ≤ 'я' then Char.ofNat (c.toNat - 32)
  else if c = 'ё' then 'Ё'
  else c

def pyLower (s : String) : String := String.mk (s.toList.map pyLowerChar)

def pyUpper (s : String) : String := String.mk (s.toList.map pyUpperChar)

/-- Python str.strip(): drop whitespace from both ends. -/
def stripChars (l : List Char) : List Char :=
  ((l.dropWhile Char.isWhitespace).reverse.dropWhile Char.isWhitespace).reverse

/-- Python str.strip() on a string. -/
def pyStrip (s : String) : String := String.mk (stripChars s.toList)

/-- Collapse every run of whitespace into a single space
(the re.sub applied after strip inside norm). -/
def collapseWs (l : List Char) : List Char :=
  l.foldr
    (fun c acc =>
      if c.isWhitespace then
        match acc with
        | ' ' :: _ => acc
        | _ => ' ' :: acc
      else c :: acc)
    []

/-- norm from esklp_update.py: strip, then collapse inner whitespace. -/
def pynorm (s : String) : String := String.mk (collapseWs (stripChars s.toList))

/-- low from esklp_update.py: norm then lower. -/
def pylow (s : String) : String := pyLower (pynorm s)

/-- Python str.replace(",", ".") as used on price and strength strings. -/
def commaDot (s : String) : String :=
  String.mk (s.toList.map (fun c => if c = ',' then '.' else c))

/-- First n characters of a string (Python slicing s[:n]). -/
def takeChars (n : Nat) (s : String) : String := String.mk (s.toList.take n)

/-- The COLS synonym dictionary of esklp_update.py: for each logical field
the set of accepted (lower-cased) raw column names; unknown key gives the
empty set (COLS.get(key, set())). -/
def COLS : String → List String
  | "product_id" => ["product_id", "id", "ид", "код", "код_изделия", "идентификатор", "ид_продукта"]
  | "trade_name" => ["trade_name", "brand", "tn", "тн", "торговое_наименование", "наименование_торговое", "лекарственный_препарат"]
  | "dosage_form" => ["dosage_form", "form", "форма", "форма_выпуска", "лекарственная_форма"]
  | "pack" => ["pack", "package", "упаковка", "упак", "доза_упаковки", "количество_в_упаковке"]
  | "country" => ["country", "origin_country", "страна", "страна_производства", "страна_происхождения"]
  | "atc_code" => ["atc_code", "atc", "атс", "атх", "код_атс", "код_атх"]
  | "registry" => ["ru_registry_url", "registry_url", "grls", "грлс", "ссылка_грлс"]
  | "leaflet" => ["instruction_url", "leaflet_url", "инструкция", "ссылка_инструкция"]
  | "inn" => ["inn", "ingredient", "substance", "мнг", "мнн", "действующее_вещество", "ингредиент", "вещество"]
  | "strength" => ["strength", "dose", "доза", "количество", "содержание"]
  | "unit" => ["unit", "uom", "ед", "единица", "единица_изм", "ед_изм"]
  | "price" => ["price_rub", "price", "znvlp_price", "предельная_цена", "цена", "макс_цена"]
  | "price_date" => ["date", "price_date", "updated_at", "дата", "дата_установления"]
  | "manufacturer" => ["manufacturer", "producer", "изготовитель", "производитель", "организация_производитель"]
  | "holder" => ["holder", "владелец_рег_удостоверения", "держатель_регистрации", "держатель_ру"]
  | "reg_number" => ["reg_number", "регистрационный_номер", "рег_номер", "номер_ру"]
  | "reg_status" => ["status", "reg_status", "статус", "статус_регистрации"]
  | _ => []

/-- A pandas cell: none models a NA value. -/
abbrev Cell := Option String

/-- A raw table row: (column name, cell) pairs in the column order of the row. -/
abbrev PyRow := List (String × Cell)

/-- pick from esklp_update.py: scan the columns of the row in order; on the
first column whose lower-cased name is in the synonym set of the key AND whose
value is non-NA, return that value; otherwise fall through to the default. -/
def pick (row : PyRow) (key : String) (dflt : Option String) : Option String :=
  match row with
  | [] => dflt
  | c :: rest =>
      if (COLS key).contains (pyLower c.1) && c.2.isSome then c.2
      else pick rest key dflt

/-- pick in a str(...) context with the default of "" (every call site of
esklp_update.py except the price lookup). -/
def pickStr (row : PyRow) (key : String) : String := (pick row key (some "")).getD ""

/-- Modelled from the spec: the field extractor as the specification words
it — return the value of the FIRST column whose lower-cased name is in the
synonym set (whatever that value is, NA included), and the empty string
when no column name is in the set.  Used only to compare against pick. -/
def pickClaim (row : PyRow) (key : String) : Option String :=
  match row.find? (fun c => (COLS key).contains (pyLower c.1)) with
  | some c => c.2
  | none => some ""

/-- syn from esklp_update.py: dictionary lookup with pass-through;
the dictionary is the association list loaded from dictionaries/*.csv. -/
def syn (mp : List (String × String)) (toLower : Bool) (x : String) : String :=
  let k := if toLower then pyLower x else x
  match mp.lookup k with
  | some v => v
  | none => x

/-- synthetic_id from esklp_update.py: join the parts with "||", hash,
take the first 16 hex digits, tag with "pid_".  The md5 hex digest is the
abstract parameter h. -/
def synthetic_id (h : String → String) (parts : List String) : String :=
  "pid_" ++ takeChars 16 (h (String.intercalate "||" parts))

/-- One row of the Products artifact (the prows dict of esklp_update.py). -/
structure Entry where
  product_id : String
  trade_name : String
  dosage_form : String
  pack : String
  country : String
  is_znvlp : Bool
  atc_code : String
  ru_registry_url : String
  instruction_url : String
  manufacturer : String
  holder : String
  reg_number : String
  reg_status : String
deriving DecidableEq

/-- The four normalization dictionaries plus the external hash. -/
structure Dicts where
  d_inn : List (String × String)
  d_brand : List (String × String)
  d_form : List (String × String)
  d_ctry : List (String × String)

/-- The PRODUCTS transform body (esklp_update.py lines 259-291):
one Entry per raw row, is_znvlp initialised to False, missing id
replaced by a synthetic one. -/
def buildProduct (h : String → String) (d : Dicts) (r : PyRow) : Entry :=
  let pid0 := pyStrip (pickStr r "product_id")
  let tn := syn d.d_brand false (pynorm (pickStr r "trade_name"))
  let frm := syn d.d_form true (pynorm (pickStr r "dosage_form"))
  let pack := pynorm (pickStr r "pack")
  let ctr := syn d.d_ctry true (pylow (pickStr r "country"))
  let atc := pyUpper (pynorm (pickStr r "atc_code"))
  let reg := pynorm (pickStr r "registry")
  let ins := pynorm (pickStr r "leaflet")
  let manufacturer := pynorm (pickStr r "manufacturer")
  let holder := pynorm (pickStr r "holder")
  let reg_number := pynorm (pickStr r "reg_number")
  let reg_status := pynorm (pickStr r "reg_status")
  let pid := if pid0 = "" then synthetic_id h [tn, frm, pack] else pid0
  { product_id := pid, trade_name := tn, dosage_form := frm, pack := pack
  , country := ctr, is_znvlp := false, atc_code := atc
  , ru_registry_url := reg, instruction_url := ins
  , manufacturer := manufacturer, holder := holder
  , reg_number := reg_number, reg_status := reg_status }

/-- pandas drop_duplicates with default arguments: remove rows identical
to an earlier row, keeping first occurrences in order. -/
def pdDedup {α : Type} [DecidableEq α] (l : List α) : List α :=
  l.foldl (fun acc x => if x ∈ acc then acc else acc ++ [x]) []

/-- dfP of esklp_update.py: the deduplicated Products rows. -/
def buildProducts (h : String → String) (d : Dicts) (raw : List PyRow) : List Entry :=
  pdDedup (raw.map (buildProduct h d))

/-- One row of the Ingredients artifact. -/
structure IngRow where
  product_id : String
  inn : String
  strength : String
  unit : String
deriving DecidableEq

/-- The COMPOSITIONS transform body (esklp_update.py lines 299-305):
product_id falls back to the raw trade_name via Python `or`, and the row
is kept only when both pid and inn are truthy. -/
def compRow (d : Dicts) (r : PyRow) : Option IngRow :=
  let pid0 := pyStrip (pickStr r "product_id")
  let pid := if pid0 = "" then pickStr r "trade_name" else pid0
  let inn := syn d.d_inn true (pylow (pickStr r "inn"))
  let strength := commaDot (pickStr r "strength")
  let unit := pylow (pickStr r "unit")
  if pid ≠ "" ∧ inn ≠ "" then some ⟨pid, inn, strength, unit⟩ else none

/-- dfI of esklp_update.py (drop_duplicates over all four columns). -/
def buildIngredients (d : Dicts) (raw : List PyRow) : List IngRow :=
  pdDedup (raw.filterMap (compRow d))

/-- One parsed raw price observation (a zrows dict of esklp_update.py).
The price field holds the comma-normalised numeric string accepted by the
float parser. -/
structure ZObs where
  product_id : String
  trade_name : String
  price : String
  date : String
deriving DecidableEq

/-- The PRICES raw transform body (esklp_update.py lines 310-318):
skip rows whose price cell is NA or empty or fails float(); empty dates
fall back to the current ISO date.  floatOk is the external CPython float
literal acceptor; today the external current date. -/
def buildZObs (floatOk : String → Bool) (today : String) (r : PyRow) : Option ZObs :=
  match pick r "price" none with
  | none => none
  | some pv =>
      if pv = "" then none
      else if floatOk (commaDot pv) then
        let d0 := pynorm (pickStr r "price_date")
        some { product_id := pyStrip (pickStr r "product_id")
             , trade_name := pylow (pickStr r "trade_name")
             , price := commaDot pv
             , date := if d0 = "" then today else d0 }
      else none

def buildZRaw (floatOk : String → Bool) (today : String) (raw : List PyRow) : List ZObs :=
  raw.filterMap (buildZObs floatOk today)

/-- Python dict-of-sets setdefault(...).add(...): append v to the bucket
of key k, creating the bucket at the end if absent.  The buckets are kept
as lists; Python set semantics only ever matter through membership. -/
def addKey {κ : Type} [DecidableEq κ] (m : List (κ × List String)) (k : κ) (v : String) :
    List (κ × List String) :=
  if m.any (fun kv => kv.1 = k) then
    m.map (fun kv => if kv.1 = k then (kv.1, kv.2 ++ [v]) else kv)
  else m ++ [(k, [v])]

/-- idx_brand of esklp_update.py: canonical lower-cased brand → product ids. -/
def idxBrand (catalog : List Entry) : List (String × List String) :=
  catalog.foldl (fun m e => addKey m (pylow e.trade_name) e.product_id) []

/-- idx_bf of esklp_update.py: (brand, form) → product ids. -/
def idxBF (catalog : List Entry) : List ((String × String) × List String) :=
  catalog.foldl (fun m e => addKey m (pylow e.trade_name, pylow e.dosage_form) e.product_id) []

/-- Tier 2 of the price reconciler: walk the (brand, form) index and union
every bucket whose brand component equals the brand of the observation. -/
def tier2Match (catalog : List Entry) (brand : String) : List String :=
  (idxBF catalog).foldl (fun acc kv => if kv.1.1 = brand then acc ++ kv.2 else acc) []

/-- Tier 3 of the price reconciler: idx_brand.get(brand, set()). -/
def tier3Match (catalog : List Entry) (brand : String) : List String :=
  match (idxBrand catalog).find? (fun kv => kv.1 = brand) with
  | some kv => kv.2
  | none => []

/-- Tier 1 of the price reconciler: the exact-id lookup against the
id set of the catalog. -/
def tier1Match (catalog : List Entry) (obs : ZObs) : List String :=
  if obs.product_id ≠ "" ∧ (catalog.map (fun e => e.product_id)).contains obs.product_id
  then [obs.product_id] else []

/-- The match set after tiers 1 and 2 (tier 2 runs only on an empty set
and a truthy brand). -/
def tier12 (catalog : List Entry) (obs : ZObs) : List String :=
  if (tier1Match catalog obs).isEmpty ∧ obs.trade_name ≠ "" then
    tier1Match catalog obs ++ tier2Match catalog obs.trade_name
  else tier1Match catalog obs

/-- The tiered matcher of esklp_update.py lines 332-340 for one
observation: exact id, then brand+form index by brand, then brand index;
each lower tier runs only while the match set is still empty. -/
def matchObs (catalog : List Entry) (obs : ZObs) : List String :=
  if (tier12 catalog obs).isEmpty ∧ obs.trade_name ≠ "" then
    tier12 catalog obs ++ tier3Match catalog obs.trade_name
  else tier12 catalog obs

/-- One matched (product_id, price, date) tuple (a zout dict). -/
structure ZTup where
  pid : String
  price : String
  date : String
deriving DecidableEq

/-- A price tuple after pd.to_datetime(..., errors="coerce"):
none is NaT. -/
structure PTup where
  pid : String
  price : String
  pdate : Option Nat
deriving DecidableEq

def toP (parse : String → Option Nat) (t : ZTup) : PTup :=
  ⟨t.pid, t.price, parse t.date⟩

/-- Date order used by the sort, with NaT (none) greatest (na_position
last); the NaT rows are dropped right after the sort anyway. -/
def dleB : Option Nat → Option Nat → Bool
  | some a, some b => a ≤ b
  | some _, none => true
  | none, some _ => false
  | none, none => true

/-- The lexicographic (product_id, price_date) sort key of
dfZ.sort_values(["product_id", "price_date"]). -/
def zleB (a b : PTup) : Bool :=
  if a.pid = b.pid then dleB a.pdate b.pdate else decide (a.pid < b.pid)

/-- Insert a into an ascending list, before the first element b with
le a b — equal keys keep the incoming (earlier-in-input) element first,
which is exactly the stable multi-key sort pandas performs. -/
def insLe {α : Type} (le : α → α → Bool) (a : α) : List α → List α
  | [] => [a]
  | b :: l => if le a b then a :: b :: l else b :: insLe le a l

/-- Stable insertion sort (the model of pandas sort_values). -/
def sortLe {α : Type} (le : α → α → Bool) : List α → List α
  | [] => []
  | a :: l => insLe le a (sortLe le (l))

/-- pandas groupby("product_id").tail(1) on a frame: keep exactly the rows
after which no later row carries the same product_id. -/
def lastPerPid : List PTup → List PTup
  | [] => []
  | r :: rest =>
      if rest.any (fun x => x.pid = r.pid) then lastPerPid rest
      else r :: lastPerPid rest

/-- The temporal deduplication stage of esklp_update.py lines 344-347:
parse dates (parse = pandas to_datetime with coercion to NaT), stable-sort
by (product_id, price_date), drop NaT rows, keep the last row per id. -/
def dedupPrices (parse : String → Option Nat) (rows : List ZTup) : List PTup :=
  lastPerPid (((sortLe zleB ((rows.map (toP parse))))).filter (fun r => r.pdate.isSome))

/-- Modelled from the spec (§4.4): among the observations for product p
whose date parses, pick the most recent one, ties resolved in favour of
the later observation.  Used only to compare against dedupPrices. -/
def specPick (p : String) : List PTup → Option PTup
  | [] => none
  | a :: rest =>
      if a.pid = p ∧ a.pdate.isSome then
        match specPick p rest with
        | none => some a
        | some x =>
            match x.pdate, a.pdate with
            | some dx, some da => if dx < da then some a else some x
            | _, _ => some x
      else specPick p rest

/-- The ЖНВЛП flag stage of esklp_update.py lines 350-352: when the final
price table is non-empty, recompute is_znvlp for every entry as membership
of its id in the table; an empty table leaves the entries untouched (they
all still carry the constructed False). -/
def applyZnvlp (dfZ : List PTup) (dfP : List Entry) : List Entry :=
  if dfZ.isEmpty then dfP
  else dfP.map (fun e =>
    { e with is_znvlp := decide (e.product_id ∈ dfZ.map (fun t => t.pid)) })

/-- The record produced by split_atc. -/
structure AtcInfo where
  atc_code : String
  level1 : String
  level2 : String
  level3 : String
  level4 : String
  level5 : String
deriving DecidableEq

/-- split_atc from esklp_update.py lines 78-87. -/
def split_atc (atc : String) : AtcInfo :=
  let code := pyUpper (pyStrip atc)
  { atc_code := code
  , level1 := if 1 ≤ code.length then takeChars 1 code else ""
  , level2 := if 3 ≤ code.length then takeChars 3 code else ""
  , level3 := if 4 ≤ code.length then takeChars 4 code else ""
  , level4 := if 5 ≤ code.length then takeChars 5 code else ""
  , level5 := if 7 ≤ code.length then code else "" }

/-- One row of the ATC artifact. -/
structure AtcRow where
  product_id : String
  atc_code : String
  level1 : String
  level2 : String
  level3 : String
  level4 : String
  level5 : String
deriving DecidableEq

def atcRowOf (e : Entry) : AtcRow :=
  let i := split_atc e.atc_code
  ⟨e.product_id, i.atc_code, i.level1, i.level2, i.level3, i.level4, i.level5⟩

/-- Code-point lexicographic comparison of character lists (the string
order pandas sorts by). -/
def charListLtB : List Char → List Char → Bool
  | [], [] => false
  | [], _ :: _ => true
  | _ :: _, [] => false
  | a :: as, b :: bs =>
      if a.toNat < b.toNat then true
      else if b.toNat < a.toNat then false
      else charListLtB as bs

def strLtB (a b : String) : Bool := charListLtB a.toList b.toList

def strLeB (a b : String) : Bool := !charListLtB b.toList a.toList

/-- Final sort key of dfP: (trade_name, dosage_form, pack), lexicographic. -/
def pLeB (a b : Entry) : Bool :=
  if a.trade_name = b.trade_name then
    (if a.dosage_form = b.dosage_form then strLeB a.pack b.pack
     else strLtB a.dosage_form b.dosage_form)
  else strLtB a.trade_name b.trade_name

def zPidLeB (a b : PTup) : Bool := strLeB a.pid b.pid

def iLeB (a b : IngRow) : Bool :=
  if a.product_id = b.product_id then strLeB a.inn b.inn
  else strLtB a.product_id b.product_id

def aLeB (a b : AtcRow) : Bool := strLeB a.product_id b.product_id

/-- The artifacts of one esklp_update.py run, plus its exit code. -/
structure RunResult where
  exitCode : Nat
  products : List Entry
  ingredients : List IngRow
  prices : List PTup
  atc : List AtcRow
deriving DecidableEq

/-- The zout stage: credit each matched id with the price of the observation
and date (the fan-out loop of lines 341-342). -/
def matchedTuples (catalog : List Entry) (zraw : List ZObs) : List ZTup :=
  zraw.flatMap (fun obs =>
    (matchObs catalog obs).map (fun pid => (⟨pid, obs.price, obs.date⟩ : ZTup)))

/-- The core of esklp_update.main (lines 257-376) over already-retrieved
raw tables: build products (exit 1 when empty), compositions, raw price
observations; run the tiered matcher, the temporal dedup, the flag stage
and the ATC stage; sort and emit. -/
def esklpMain (h : String → String) (d : Dicts) (floatOk : String → Bool)
    (parse : String → Option Nat) (today : String)
    (rawP rawI rawZ : List PyRow) : RunResult :=
  if (buildProducts h d rawP).isEmpty then ⟨1, [], [], [], []⟩
  else
    ⟨0,
      sortLe pLeB (applyZnvlp
        (dedupPrices parse
          (matchedTuples (buildProducts h d rawP) (buildZRaw floatOk today rawZ)))
        (buildProducts h d rawP)),
      sortLe iLeB (buildIngredients d rawI),
      sortLe zPidLeB (dedupPrices parse
        (matchedTuples (buildProducts h d rawP) (buildZRaw floatOk today rawZ))),
      sortLe aLeB (pdDedup ((applyZnvlp
        (dedupPrices parse
          (matchedTuples (buildProducts h d rawP) (buildZRaw floatOk today rawZ)))
        (buildProducts h d rawP)).map atcRowOf))⟩

/-- Substring test (Python `k in name`). -/
def containsSub (s pat : String) : Bool :=
  s.toList.tails.any (fun t => pat.toList.isPrefixOf t)

/-- guess_kind from esklp_update.py lines 185-215.  cols0 are the raw
column names (lower-cased inside, like the set comprehension), filename
the archive member name.  Returns none for an unclassified table. -/
def guess_kind (cols0 : List String) (filename : String) : Option String :=
  let cols := cols0.map pyLower
  let name := pyLower filename
  if cols.contains "inn" ∧
     (cols.contains "product_id" ∨ cols.contains "id" ∨ cols.contains "код") then
    some "compositions"
  else if (cols.contains "substance" ∨ cols.contains "ingredient") ∧
          (cols.contains "product_id" ∨ cols.contains "id") then
    some "compositions"
  else if ["состав", "ингредиент", "composition", "ingredients"].any
            (fun k => containsSub name k) then
    some "compositions"
  else if (["price_rub", "price", "znvlp_price", "цена", "предельная_цена"].any
             (fun k => cols.contains k)) ∧
          (["product_id", "trade_name", "brand", "тн", "торговое_наименование"].any
             (fun k => cols.contains k)) then
    some "prices"
  else if ["жнвлп", "price", "цена", "предельн"].any (fun k => containsSub name k) then
    some "prices"
  else if 2 ≤ (["trade_name", "brand", "торговое_наименование", "dosage_form",
                "форма_выпуска", "pack", "упаковка", "country", "страна"].filter
                 (fun k => cols.contains k)).length then
    some "products"
  else if ["prod", "product", "лекарств", "реестр", "препарат", "tn", "brand"].any
            (fun k => containsSub name k) then
    some "products"
  else if ["atc", "atc_code", "атс", "атх"].any (fun k => cols.contains k) then
    some "products"
  else none

/-- A products record of update_data.py (fields of the expected JSON). -/
structure URecP where
  uid : Option String
  trade_name : Option String
  dosage_form : Option String
  pack : Option String
  country : Option String
  atc : Option String
  registry_url : Option String
  instruction_url : Option String

/-- A prices record of update_data.py. -/
structure URecZ where
  product_id : Option String
  trade_name : Option String
  price_rub : Option String
  date : Option String

/-- Python `x or ""` on an optional string field. -/
def orEmpty (x : Option String) : String :=
  match x with
  | some s => s
  | none => ""

/-- f-string zero padding to 7 digits (f"esklp_{i+1:07d}"). -/
def pad7 (n : Nat) : String :=
  let s := toString n
  String.mk (List.replicate (7 - s.length) '0') ++ s

/-- load_products of update_data.py (lines 100-114): explicit id when
truthy, positional fallback otherwise. -/
def loadProductsU (recs : List URecP) : List Entry :=
  recs.enum.map (fun ir =>
    let r := ir.2
    let pid := if orEmpty r.uid = "" then "esklp_" ++ pad7 (ir.1 + 1) else orEmpty r.uid
    { product_id := pid
    , trade_name := pynorm (orEmpty r.trade_name)
    , dosage_form := pynorm (orEmpty r.dosage_form)
    , pack := pynorm (orEmpty r.pack)
    , country := pynorm (orEmpty r.country)
    , is_znvlp := false
    , atc_code := pyUpper (pynorm (orEmpty r.atc))
    , ru_registry_url := orEmpty r.registry_url
    , instruction_url := orEmpty r.instruction_url
    , manufacturer := "", holder := "", reg_number := "", reg_status := "" })

/-- load_prices of update_data.py (lines 143-153).  The float call sits
outside any try, so a price_rub that the float parser rejects raises an
uncaught ValueError: modelled as Except.error.  floatVal is the external
CPython float parser (none = ValueError), isZero recognises a parsed zero
(which the trailing `or None` turns into a dropped row). -/
def loadPricesU (floatOk : String → Bool) (isZero : String → Bool) (today : String)
    (recs : List URecZ) : Except Unit (List ZObs) :=
  match recs with
  | [] => Except.ok []
  | r :: rest =>
      if floatOk (commaDot (if orEmpty r.price_rub = "" then "0" else orEmpty r.price_rub)) then
        match loadPricesU floatOk isZero today rest with
        | Except.error e => Except.error e
        | Except.ok l =>
            if isZero (commaDot (if orEmpty r.price_rub = "" then "0"
                else orEmpty r.price_rub)) then Except.ok l
            else
              Except.ok ({ product_id := orEmpty r.product_id
                         , trade_name := pylow (orEmpty r.trade_name)
                         , price := commaDot (if orEmpty r.price_rub = "" then "0"
                             else orEmpty r.price_rub)
                         , date := if pynorm (orEmpty r.date) = "" then today
                                   else pynorm (orEmpty r.date) } :: l)
      else Except.error ()

/-- The rows load_prices yields when no price value fails the float
parser: rows whose parsed price is zero are dropped (the trailing
`or None`), empty dates fall back to the current date. -/
def loadPricesList (floatOk isZero : String → Bool) (today : String) :
    List URecZ → List ZObs
  | [] => []
  | r :: rest =>
      if floatOk (commaDot (if orEmpty r.price_rub = "" then "0"
          else orEmpty r.price_rub)) then
        if isZero (commaDot (if orEmpty r.price_rub = "" then "0"
            else orEmpty r.price_rub)) then
          loadPricesList floatOk isZero today rest
        else
          { product_id := orEmpty r.product_id
          , trade_name := pylow (orEmpty r.trade_name)
          , price := commaDot (if orEmpty r.price_rub = "" then "0"
              else orEmpty r.price_rub)
          , date := if pynorm (orEmpty r.date) = "" then today
                    else pynorm (orEmpty r.date) } ::
            loadPricesList floatOk isZero today rest
      else loadPricesList floatOk isZero today rest

/-- The tn_index bucket of update_data (lines 169-173), taken by
membership: the set of catalog ids whose lower-cased trade name equals
tn. -/
def tnBucket (products : List Entry) (tn : String) : List String :=
  pdDedup ((products.filter (fun e => pyLower e.trade_name = tn)).map
    (fun e => e.product_id))

/-- The df_prices_out mapping loop of update_data (lines 175-188): each
observation credits its explicit product_id when truthy (with no catalog
check) united with the tn_index bucket of its trade name — unlike
esklp_update there is no tiering, both lookups contribute. -/
def updPriceOut (products : List Entry) (zrows : List ZObs) : List ZTup :=
  zrows.flatMap (fun obs =>
    let pids1 := if obs.product_id ≠ "" then [obs.product_id] else []
    let tn := pyLower obs.trade_name
    let pids :=
      if tn ≠ "" ∧ tnBucket products tn ≠ [] then
        pids1 ++ (tnBucket products tn).filter (fun p => p ∉ pids1)
      else pids1
    pids.map (fun pid => (⟨pid, obs.price, obs.date⟩ : ZTup)))

/-- The exit code of update_data.main: an unparseable price aborts with a
traceback (exit 1); sys.exit(1) fires when the products frame is empty;
after the mapping, the UNGUARDED df_prices_out.sort_values at line 204
raises an uncaught KeyError whenever the mapping produced no row (the
empty frame has no product_id column), again exit 1; otherwise the run
completes with 0. -/
def updExit (floatOk : String → Bool) (isZero : String → Bool) (today : String)
    (recsP : List URecP) (recsZ : List URecZ) : Nat :=
  match loadPricesU floatOk isZero today recsZ with
  | Except.error _ => 1
  | Except.ok dfz =>
      if (loadProductsU recsP).isEmpty then 1
      else if (updPriceOut (loadProductsU recsP) dfz).isEmpty then 1
      else 0

theorem mem_insLe {α : Type} (le : α → α → Bool) (a : α) (l : List α) (x : α) :
    x ∈ insLe le a l ↔ x = a ∨ x ∈ l := by
  induction l with
  | nil => simp [insLe]
  | cons b t ih =>
      by_cases h : le a b = true
      · simp [insLe, h]
      · simp only [insLe, if_neg h, List.mem_cons, ih]
        tauto

theorem mem_sortLe {α : Type} (le : α → α → Bool) (l : List α) (x : α) :
    x ∈ sortLe le l ↔ x ∈ l := by
  induction l with
  | nil => simp [sortLe]
  | cons a t ih => simp [sortLe, mem_insLe, ih]

theorem pairwise_insLe {α : Type} (le : α → α → Bool)
    (htot : ∀ a b : α, le a b = true ∨ le b a = true)
    (htrans : ∀ a b c : α, le a b = true → le b c = true → le a c = true)
    (a : α) (l : List α) (hl : l.Pairwise (fun x y => le x y = true)) :
    (insLe le a l).Pairwise (fun x y => le x y = true) := by
  induction l with
  | nil => simp [insLe]
  | cons b t ih =>
      rw [List.pairwise_cons] at hl
      obtain ⟨hb, ht⟩ := hl
      by_cases h : le a b = true
      · simp only [insLe, if_pos h]
        refine List.Pairwise.cons ?_ (List.Pairwise.cons hb ht)
        intro z hz
        rcases List.mem_cons.mp hz with rfl | hz
        · exact h
        · exact htrans a b z h (hb z hz)
      · simp only [insLe, if_neg h]
        refine List.Pairwise.cons ?_ (ih ht)
        intro z hz
        rcases (mem_insLe le a t z).mp hz with rfl | hz
        · rcases htot z b with h1 | h1
          · exact absurd h1 h
          · exact h1
        · exact hb z hz

theorem pairwise_sortLe {α : Type} (le : α → α → Bool)
    (htot : ∀ a b : α, le a b = true ∨ le b a = true)
    (htrans : ∀ a b c : α, le a b = true → le b c = true → le a c = true)
    (l : List α) : (sortLe le l).Pairwise (fun x y => le x y = true) := by
  induction l with
  | nil => simp [sortLe]
  | cons a t ih => exact pairwise_insLe le htot htrans a (sortLe le t) ih

theorem pdDedup_go_mem {α : Type} [DecidableEq α] (l acc : List α) (x : α) :
    x ∈ l.foldl (fun acc y => if y ∈ acc then acc else acc ++ [y]) acc ↔
      x ∈ acc ∨ x ∈ l := by
  induction l generalizing acc with
  | nil => simp
  | cons a t ih =>
      by_cases h : a ∈ acc
      · simp only [List.foldl_cons, if_pos h, ih, List.mem_cons]
        constructor
        · rintro (hx | hx)
          · exact Or.inl hx
          · exact Or.inr (Or.inr hx)
        · rintro (hx | rfl | hx)
          · exact Or.inl hx
          · exact Or.inl h
          · exact Or.inr hx
      · simp only [List.foldl_cons, if_neg h, ih, List.mem_append,
          List.mem_singleton, List.mem_cons]
        tauto

theorem mem_pdDedup {α : Type} [DecidableEq α] (l : List α) (x : α) :
    x ∈ pdDedup l ↔ x ∈ l := by
  have := pdDedup_go_mem l [] x
  simpa [pdDedup] using this

theorem pdDedup_go_nodup {α : Type} [DecidableEq α] (l acc : List α) (hacc : acc.Nodup) :
    (l.foldl (fun acc y => if y ∈ acc then acc else acc ++ [y]) acc).Nodup := by
  induction l generalizing acc with
  | nil => simpa
  | cons a t ih =>
      by_cases h : a ∈ acc
      · simp only [List.foldl_cons, if_pos h]
        exact ih acc hacc
      · simp only [List.foldl_cons, if_neg h]
        refine ih (acc ++ [a]) ?_
        simpa [List.nodup_append, hacc] using h

theorem pdDedup_nodup {α : Type} [DecidableEq α] (l : List α) : (pdDedup l).Nodup :=
  pdDedup_go_nodup l [] List.nodup_nil

/-- The last row of l whose product_id is p and whose date parsed. -/
def lastSome (p : String) : List PTup → Option PTup
  | [] => none
  | a :: rest =>
      match lastSome p rest with
      | some x => some x
      | none => if a.pid = p ∧ a.pdate.isSome then some a else none

/-- Strictly-more-recent test on parsed dates. -/
def optLtB : Option Nat → Option Nat → Bool
  | some dx, some da => decide (dx < da)
  | _, _ => false

theorem dleB_total (a b : Option Nat) : dleB a b = true ∨ dleB b a = true := by
  cases a <;> cases b <;> simp [dleB] <;> omega

theorem dleB_trans (a b c : Option Nat) (h1 : dleB a b = true) (h2 : dleB b c = true) :
    dleB a c = true := by
  cases a <;> cases b <;> cases c <;> simp [dleB] at * <;> omega

theorem zleB_total (a b : PTup) : zleB a b = true ∨ zleB b a = true := by
  by_cases h : a.pid = b.pid
  · simp only [zleB, if_pos h, if_pos h.symm]
    exact dleB_total a.pdate b.pdate
  · have h2 : ¬b.pid = a.pid := fun hh => h hh.symm
    rcases lt_trichotomy a.pid b.pid with h1 | h1 | h1
    · left; simp [zleB, h, h1]
    · exact absurd h1 h
    · right; simp [zleB, h2, h1]

theorem zleB_trans (a b c : PTup) (h1 : zleB a b = true) (h2 : zleB b c = true) :
    zleB a c = true := by
  by_cases hab : a.pid = b.pid <;> by_cases hbc : b.pid = c.pid
  · have hac : a.pid = c.pid := hab.trans hbc
    have h1a : dleB a.pdate b.pdate = true := by simpa [zleB, hab] using h1
    have h2a : dleB b.pdate c.pdate = true := by simpa [zleB, hbc] using h2
    simpa [zleB, hac] using dleB_trans _ _ _ h1a h2a
  · have hac : ¬a.pid = c.pid := fun hh => hbc (hab.symm.trans hh)
    have h2a : b.pid < c.pid := by simpa [zleB, hbc] using h2
    have h3 : a.pid < c.pid := by rw [hab]; exact h2a
    simp [zleB, hac, h3]
  · have hac : ¬a.pid = c.pid := fun hh => hab (hh.trans hbc.symm)
    have h1a : a.pid < b.pid := by simpa [zleB, hab] using h1
    have h3 : a.pid < c.pid := hbc ▸ h1a
    simp [zleB, hac, h3]
  · have h1a : a.pid < b.pid := by simpa [zleB, hab] using h1
    have h2a : b.pid < c.pid := by simpa [zleB, hbc] using h2
    have h3 : a.pid < c.pid := lt_trans h1a h2a
    have hac : ¬a.pid = c.pid := fun hh => absurd (hh ▸ h3) (lt_irrefl c.pid)
    simp [zleB, hac, h3]

theorem lastSome_mem (p : String) (l : List PTup) (r : PTup)
    (h : lastSome p l = some r) : r ∈ l ∧ r.pid = p ∧ r.pdate.isSome = true := by
  induction l with
  | nil => simp [lastSome] at h
  | cons a t ih =>
      rw [lastSome] at h
      cases h1 : lastSome p t with
      | some x =>
          rw [h1] at h
          obtain rfl : x = r := by simpa using h
          obtain ⟨hm, hp, hd⟩ := ih h1
          exact ⟨List.mem_cons_of_mem a hm, hp, hd⟩
      | none =>
          rw [h1] at h
          by_cases hc : a.pid = p ∧ a.pdate.isSome
          · rw [if_pos hc] at h
            obtain rfl : a = r := by simpa using h
            exact ⟨List.mem_cons_self a t, hc.1, hc.2⟩
          · rw [if_neg hc] at h
            exact absurd h (by simp)

theorem lastSome_none (p : String) (l : List PTup) (h : lastSome p l = none) :
    ∀ x ∈ l, ¬(x.pid = p ∧ x.pdate.isSome = true) := by
  induction l with
  | nil => intro x hx; simp at hx
  | cons a t ih =>
      rw [lastSome] at h
      cases h1 : lastSome p t with
      | some x => rw [h1] at h; exact absurd h (by simp)
      | none =>
          rw [h1] at h
          intro x hx
          rcases List.mem_cons.mp hx with rfl | hx
          · by_cases hc : x.pid = p ∧ x.pdate.isSome
            · rw [if_pos hc] at h; exact absurd h (by simp)
            · simpa using hc
          · exact ih h1 x hx

theorem lastSome_isSome (p : String) (l : List PTup) (x : PTup) (hx : x ∈ l)
    (hp : x.pid = p) (hd : x.pdate.isSome = true) : ∃ r, lastSome p l = some r := by
  cases h : lastSome p l with
  | some r => exact ⟨r, rfl⟩
  | none => exact absurd ⟨hp, hd⟩ (lastSome_none p l h x hx)

theorem lastPerPid_subset (l : List PTup) (r : PTup) (h : r ∈ lastPerPid l) : r ∈ l := by
  induction l with
  | nil => simpa [lastPerPid] using h
  | cons a t ih =>
      rw [lastPerPid] at h
      by_cases ha : t.any (fun x => x.pid = a.pid) = true
      · rw [if_pos ha] at h
        exact List.mem_cons_of_mem a (ih h)
      · rw [if_neg ha] at h
        rcases List.mem_cons.mp h with rfl | h
        · exact List.mem_cons_self r t
        · exact List.mem_cons_of_mem a (ih h)

theorem lastPerPid_pid_nodup (l : List PTup) :
    ((lastPerPid l).map (fun r => r.pid)).Nodup := by
  induction l with
  | nil => simp [lastPerPid]
  | cons a t ih =>
      rw [lastPerPid]
      by_cases ha : t.any (fun x => x.pid = a.pid) = true
      · rw [if_pos ha]; exact ih
      · rw [if_neg ha]
        simp only [List.map_cons, List.nodup_cons]
        refine ⟨?_, ih⟩
        intro hmem
        obtain ⟨y, hy, hyp⟩ := List.mem_map.mp hmem
        exact ha (List.any_eq_true.mpr
          ⟨y, lastPerPid_subset t y hy, by simp [hyp]⟩)

theorem lastPerPid_filter_char (l : List PTup) (r : PTup)
    (h : r ∈ lastPerPid (l.filter (fun x => x.pdate.isSome))) :
    lastSome r.pid l = some r := by
  induction l with
  | nil => simp [lastPerPid] at h
  | cons a t ih =>
      by_cases hds : a.pdate.isSome = true
      · rw [List.filter_cons_of_pos (by simpa using hds)] at h
        rw [lastPerPid] at h
        by_cases hany :
            (t.filter (fun x => x.pdate.isSome)).any (fun x => x.pid = a.pid) = true
        · rw [if_pos hany] at h
          rw [lastSome, ih h]
        · rw [if_neg hany] at h
          rcases List.mem_cons.mp h with hra | h2
          · subst hra
            have hnone : lastSome r.pid t = none := by
              cases h2 : lastSome r.pid t with
              | none => rfl
              | some x =>
                  obtain ⟨hm, hp, hd⟩ := lastSome_mem _ _ _ h2
                  exact absurd (List.any_eq_true.mpr
                    ⟨x, List.mem_filter.mpr ⟨hm, by simpa using hd⟩, by simp [hp]⟩) hany
            rw [lastSome, hnone, if_pos ⟨rfl, hds⟩]
          · rw [lastSome, ih h2]
      · rw [List.filter_cons_of_neg (by simpa using hds)] at h
        rw [lastSome, ih h]

theorem lastSome_mem_lastPerPid (p : String) (l : List PTup) (r : PTup)
    (h : lastSome p l = some r) :
    r ∈ lastPerPid (l.filter (fun x => x.pdate.isSome)) := by
  induction l with
  | nil => simp [lastSome] at h
  | cons a t ih =>
      rw [lastSome] at h
      cases h1 : lastSome p t with
      | some x =>
          rw [h1] at h
          obtain rfl : x = r := by simpa using h
          have hm := ih h1
          by_cases hds : a.pdate.isSome = true
          · rw [List.filter_cons_of_pos (by simpa using hds)]
            rw [lastPerPid]
            by_cases hany :
                (t.filter (fun y => y.pdate.isSome)).any (fun y => y.pid = a.pid) = true
            · rw [if_pos hany]; exact hm
            · rw [if_neg hany]; exact List.mem_cons_of_mem a hm
          · rw [List.filter_cons_of_neg (by simpa using hds)]
            exact hm
      | none =>
          rw [h1] at h
          by_cases hc : a.pid = p ∧ a.pdate.isSome
          · rw [if_pos hc] at h
            obtain rfl : a = r := by simpa using h
            rw [List.filter_cons_of_pos (by simpa using hc.2)]
            rw [lastPerPid]
            have hany :
                ¬(t.filter (fun y => y.pdate.isSome)).any (fun y => y.pid = a.pid) = true := by
              intro hx
              obtain ⟨y, hy, hyp⟩ := List.any_eq_true.mp hx
              obtain ⟨hyt, hyd⟩ := List.mem_filter.mp hy
              have hyp2 : y.pid = p := by
                have : y.pid = a.pid := by simpa using hyp
                rw [this, hc.1]
              exact absurd ⟨hyp2, by simpa using hyd⟩ (lastSome_none p t h1 y hyt)
            rw [if_neg hany]
            exact List.mem_cons_self _ _
          · rw [if_neg hc] at h
            exact absurd h (by simp)

theorem lastSome_cons_some (p : String) (c y : PTup) (l : List PTup)
    (h : lastSome p l = some y) : lastSome p (c :: l) = some y := by
  rw [lastSome, h]

theorem lastSome_cons_none (p : String) (c : PTup) (l : List PTup)
    (h : lastSome p l = none) :
    lastSome p (c :: l) = if c.pid = p ∧ c.pdate.isSome then some c else none := by
  rw [lastSome, h]

theorem lastSome_insLe (p : String) (a : PTup) (s : List PTup)
    (hs : s.Pairwise (fun x y => zleB x y = true)) :
    lastSome p (insLe zleB a s) =
      match lastSome p s with
      | none => if a.pid = p ∧ a.pdate.isSome then some a else none
      | some x =>
          if a.pid = p ∧ a.pdate.isSome ∧ optLtB x.pdate a.pdate = true then some a
          else some x := by
  induction s with
  | nil => simp [insLe, lastSome]
  | cons b u ih =>
      rw [List.pairwise_cons] at hs
      obtain ⟨hball, hu⟩ := hs
      by_cases hab : zleB a b = true
      · simp only [insLe, if_pos hab]
        cases hbu : lastSome p (b :: u) with
        | none =>
            rw [lastSome_cons_none p a (b :: u) hbu]
        | some x =>
            rw [lastSome_cons_some p a x (b :: u) hbu]
            have hcond : ¬(a.pid = p ∧ a.pdate.isSome ∧ optLtB x.pdate a.pdate = true) := by
              rintro ⟨hap, hads, hlt⟩
              obtain ⟨hxm, hxp, hxd⟩ := lastSome_mem p (b :: u) x hbu
              have hax : zleB a x = true := by
                rcases List.mem_cons.mp hxm with hxb | hxm2
                · rw [hxb]; exact hab
                · exact zleB_trans a b x hab (hball x hxm2)
              have hpe : a.pid = x.pid := by rw [hap, hxp]
              have hdle : dleB a.pdate x.pdate = true := by
                simpa [zleB, hpe] using hax
              obtain ⟨da, hda⟩ := Option.isSome_iff_exists.mp hads
              obtain ⟨dx, hdx⟩ := Option.isSome_iff_exists.mp hxd
              rw [hda, hdx] at hdle hlt
              simp only [dleB, decide_eq_true_eq] at hdle
              simp only [optLtB, decide_eq_true_eq] at hlt
              omega
            show some x =
              if a.pid = p ∧ a.pdate.isSome ∧ optLtB x.pdate a.pdate = true then some a
              else some x
            rw [if_neg hcond]
      · simp only [insLe, if_neg hab]
        cases hu0 : lastSome p u with
        | some x =>
            have h3 : lastSome p (insLe zleB a u) =
                if a.pid = p ∧ a.pdate.isSome ∧ optLtB x.pdate a.pdate = true then some a
                else some x := by rw [ih hu, hu0]
            have hbu : lastSome p (b :: u) = some x := lastSome_cons_some p b x u hu0
            conv_rhs => rw [hbu]
            show lastSome p (b :: insLe zleB a u) =
              if a.pid = p ∧ a.pdate.isSome ∧ optLtB x.pdate a.pdate = true then some a
              else some x
            by_cases hca : a.pid = p ∧ a.pdate.isSome ∧ optLtB x.pdate a.pdate = true
            · rw [if_pos hca] at h3 ⊢
              exact lastSome_cons_some p b a _ h3
            · rw [if_neg hca] at h3 ⊢
              exact lastSome_cons_some p b x _ h3
        | none =>
            have hbu0 : lastSome p (b :: u) =
                if b.pid = p ∧ b.pdate.isSome then some b else none :=
              lastSome_cons_none p b u hu0
            by_cases hcb : b.pid = p ∧ b.pdate.isSome
            · rw [if_pos hcb] at hbu0
              conv_rhs => rw [hbu0]
              show lastSome p (b :: insLe zleB a u) =
                if a.pid = p ∧ a.pdate.isSome ∧ optLtB b.pdate a.pdate = true then some a
                else some b
              by_cases hca : a.pid = p ∧ a.pdate.isSome
              · have hlt : optLtB b.pdate a.pdate = true := by
                  have hpe : a.pid = b.pid := by rw [hca.1, hcb.1]
                  have hnd : ¬dleB a.pdate b.pdate = true := by
                    intro hdd
                    exact hab (by simp [zleB, hpe, hdd])
                  obtain ⟨da, hda⟩ := Option.isSome_iff_exists.mp hca.2
                  obtain ⟨db, hdb⟩ := Option.isSome_iff_exists.mp hcb.2
                  rw [hda, hdb] at hnd ⊢
                  simp only [dleB, decide_eq_true_eq] at hnd
                  simp only [optLtB, decide_eq_true_eq]
                  omega
                rw [if_pos ⟨hca.1, hca.2, hlt⟩]
                have h3 : lastSome p (insLe zleB a u) = some a := by
                  have h4 : lastSome p (insLe zleB a u) =
                      if a.pid = p ∧ a.pdate.isSome then some a else none := by
                    rw [ih hu, hu0]
                  rw [h4, if_pos hca]
                exact lastSome_cons_some p b a _ h3
              · have hca2 : ¬(a.pid = p ∧ a.pdate.isSome ∧ optLtB b.pdate a.pdate = true) :=
                  fun hh => hca ⟨hh.1, hh.2.1⟩
                rw [if_neg hca2]
                have h3 : lastSome p (insLe zleB a u) = none := by
                  have h4 : lastSome p (insLe zleB a u) =
                      if a.pid = p ∧ a.pdate.isSome then some a else none := by
                    rw [ih hu, hu0]
                  rw [h4, if_neg hca]
                rw [lastSome_cons_none p b _ h3, if_pos hcb]
            · rw [if_neg hcb] at hbu0
              conv_rhs => rw [hbu0]
              show lastSome p (b :: insLe zleB a u) =
                if a.pid = p ∧ a.pdate.isSome then some a else none
              by_cases hca : a.pid = p ∧ a.pdate.isSome
              · rw [if_pos hca]
                have h3 : lastSome p (insLe zleB a u) = some a := by
                  have h4 : lastSome p (insLe zleB a u) =
                      if a.pid = p ∧ a.pdate.isSome then some a else none := by
                    rw [ih hu, hu0]
                  rw [h4, if_pos hca]
                exact lastSome_cons_some p b a _ h3
              · rw [if_neg hca]
                have h3 : lastSome p (insLe zleB a u) = none := by
                  have h4 : lastSome p (insLe zleB a u) =
                      if a.pid = p ∧ a.pdate.isSome then some a else none := by
                    rw [ih hu, hu0]
                  rw [h4, if_neg hca]
                rw [lastSome_cons_none p b _ h3, if_neg hcb]

theorem lastSome_sortLe (p : String) (l : List PTup) :
    lastSome p (sortLe zleB l) = specPick p l := by
  induction l with
  | nil => rfl
  | cons a t ih =>
      have hpw := pairwise_sortLe zleB zleB_total zleB_trans t
      simp only [sortLe]
      rw [lastSome_insLe p a (sortLe zleB t) hpw, ih]
      cases hs : specPick p t with
      | none =>
          have hRns : specPick p (a :: t) =
              if a.pid = p ∧ a.pdate.isSome then some a else none := by
            rw [specPick, hs]
          rw [hRns]
      | some x =>
          have hRs : specPick p (a :: t) =
              if a.pid = p ∧ a.pdate.isSome then
                (match x.pdate, a.pdate with
                 | some dx, some da => if dx < da then some a else some x
                 | _, _ => some x)
              else some x := by
            rw [specPick, hs]
          rw [hRs]
          show (if a.pid = p ∧ a.pdate.isSome ∧ optLtB x.pdate a.pdate = true then some a
                else some x) =
              if a.pid = p ∧ a.pdate.isSome then
                (match x.pdate, a.pdate with
                 | some dx, some da => if dx < da then some a else some x
                 | _, _ => some x)
              else some x
          by_cases hca : a.pid = p ∧ a.pdate.isSome
          · rw [if_pos hca]
            obtain ⟨hca1, hca2⟩ := hca
            cases hxd : x.pdate with
            | none =>
                have hcond : ¬(a.pid = p ∧ a.pdate.isSome = true ∧
                    optLtB none a.pdate = true) := by
                  rintro ⟨_, _, hlt⟩
                  cases h5 : a.pdate <;> rw [h5] at hlt <;> simp [optLtB] at hlt
                rw [if_neg hcond]
            | some dx =>
                cases had : a.pdate with
                | none => rw [had] at hca2; simp at hca2
                | some da =>
                    by_cases hlt : dx < da
                    · have hcond : a.pid = p ∧ (some da : Option Nat).isSome = true ∧
                          optLtB (some dx) (some da) = true :=
                        ⟨hca1, rfl, by simpa [optLtB] using hlt⟩
                      rw [if_pos hcond]
                      show some a = if dx < da then some a else some x
                      rw [if_pos hlt]
                    · have hcond : ¬(a.pid = p ∧ (some da : Option Nat).isSome = true ∧
                          optLtB (some dx) (some da) = true) := by
                        rintro ⟨_, _, hl⟩
                        simp only [optLtB, decide_eq_true_eq] at hl
                        exact hlt hl
                      rw [if_neg hcond]
                      show some x = if dx < da then some a else some x
                      rw [if_neg hlt]
          · have hca2 : ¬(a.pid = p ∧ a.pdate.isSome ∧ optLtB x.pdate a.pdate = true) :=
              fun hh => hca ⟨hh.1, hh.2.1⟩
            rw [if_neg hca2, if_neg hca]

/-- Parsing stand-in and rows used to witness the dedup claims. -/
def c3Parse : String → Option Nat := fun s =>
  if s = "2024-01-01" then some 1 else if s = "2024-06-01" then some 2 else none

def c3Rows : List ZTup :=
  [⟨"A", "10", "2024-01-01"⟩, ⟨"A", "20", "2024-06-01"⟩, ⟨"A", "30", "bad"⟩]

/-- C3: in the temporal dedup stage, tuples with unparseable dates are
excluded, the result has at most one row per product_id, each surviving
row is exactly the most recent parseable tuple of its group (ties going to
the later observation, per the stable sort), and every id with at least
one parseable tuple survives. -/
theorem claim_C3_temporal_dedup (parse : String → Option Nat) (rows : List ZTup) (p : String) :
    (∀ r ∈ dedupPrices parse rows, r.pdate.isSome = true) ∧
    ((dedupPrices parse rows).map (fun r => r.pid)).Nodup ∧
    (∀ r ∈ dedupPrices parse rows, r.pid = p →
      specPick p (rows.map (toP parse)) = some r) ∧
    ((∃ x ∈ rows.map (toP parse), x.pid = p ∧ x.pdate.isSome = true) →
      ∃ r ∈ dedupPrices parse rows, r.pid = p) := by
  refine ⟨?_, ?_, ?_, ?_⟩
  · intro r hr
    simp only [dedupPrices] at hr
    have h1 := lastPerPid_subset _ _ hr
    exact (List.mem_filter.mp h1).2
  · simp only [dedupPrices]
    exact lastPerPid_pid_nodup _
  · intro r hr hp
    simp only [dedupPrices] at hr
    have h1 := lastPerPid_filter_char (sortLe zleB (rows.map (toP parse))) r hr
    rw [lastSome_sortLe] at h1
    rw [← hp]
    exact h1
  · rintro ⟨x, hx, hxp, hxd⟩
    have hx2 : x ∈ sortLe zleB (rows.map (toP parse)) := (mem_sortLe _ _ _).mpr hx
    obtain ⟨r, hr⟩ := lastSome_isSome p _ x hx2 hxp hxd
    refine ⟨r, ?_, (lastSome_mem p _ r hr).2.1⟩
    simp only [dedupPrices]
    exact lastSome_mem_lastPerPid p _ r hr

/-- Witness for C3 at concrete inputs: rows for id A dated 2024-01-01 and
2024-06-01 (plus an unparseable one) leave exactly one row, and the
spec-side selector picks the 2024-06-01 tuple. -/
theorem claim_C3_witness :
    ((∃ x ∈ c3Rows.map (toP c3Parse), x.pid = "A" ∧ x.pdate.isSome = true) ∧
      ∃ r ∈ dedupPrices c3Parse c3Rows, r.pid = "A") ∧
    specPick "A" (c3Rows.map (toP c3Parse)) = some ⟨"A", "20", some 2⟩ := by
  refine ⟨⟨by decide, (claim_C3_temporal_dedup c3Parse c3Rows "A").2.2.2 (by decide)⟩, by decide⟩

/-- C2: an observation whose product_id is non-empty and present in the
id set of the catalog is matched to exactly that id; the brand tiers are
guarded by the emptiness test and never consulted. -/
theorem claim_C2_exact_id_tier (catalog : List Entry) (obs : ZObs)
    (h1 : obs.product_id ≠ "")
    (h2 : obs.product_id ∈ catalog.map (fun e => e.product_id)) :
    matchObs catalog obs = [obs.product_id] := by
  have hc : (catalog.map (fun e => e.product_id)).contains obs.product_id = true :=
    List.elem_iff.mpr h2
  have ht1 : tier1Match catalog obs = [obs.product_id] := by
    unfold tier1Match
    rw [if_pos ⟨h1, hc⟩]
  have ht12 : tier12 catalog obs = [obs.product_id] := by
    unfold tier12
    rw [ht1]
    rw [if_neg (by simp)]
  unfold matchObs
  rw [ht12]
  rw [if_neg (by simp)]

def c2Catalog : List Entry :=
  [⟨"p1", "Br", "t", "", "", false, "", "", "", "", "", "", ""⟩,
   ⟨"p2", "Br", "s", "", "", false, "", "", "", "", "", "", ""⟩]

def c2Obs : ZObs := ⟨"p1", "br", "1", "2024-01-01"⟩

/-- Witness for C2: the brand br would also match p2 via the brand index,
yet the exact-id observation is credited only to p1. -/
theorem claim_C2_witness :
    c2Obs.product_id ≠ "" ∧ c2Obs.product_id ∈ c2Catalog.map (fun e => e.product_id) ∧
    matchObs c2Catalog c2Obs = ["p1"] ∧ "p2" ∈ tier3Match c2Catalog "br" := by
  refine ⟨by decide, by decide, ?_, by decide⟩
  exact claim_C2_exact_id_tier c2Catalog c2Obs (by decide) (by decide)

/-- C7: after uppercase + strip normalization, the five ATC levels are the
prefixes of 1, 3, 4, 5 characters (eagerly, when the code is long enough)
and the full code at length at least 7; in particular on N02BE51 and N02
the decomposition is as the specification lists it. -/
theorem claim_C7_atc_levels :
    (∀ s : String,
      (split_atc s).atc_code = pyUpper (pyStrip s) ∧
      (split_atc s).level1.toList =
        (if 1 ≤ (pyUpper (pyStrip s)).toList.length
         then (pyUpper (pyStrip s)).toList.take 1 else []) ∧
      (split_atc s).level2.toList =
        (if 3 ≤ (pyUpper (pyStrip s)).toList.length
         then (pyUpper (pyStrip s)).toList.take 3 else []) ∧
      (split_atc s).level3.toList =
        (if 4 ≤ (pyUpper (pyStrip s)).toList.length
         then (pyUpper (pyStrip s)).toList.take 4 else []) ∧
      (split_atc s).level4.toList =
        (if 5 ≤ (pyUpper (pyStrip s)).toList.length
         then (pyUpper (pyStrip s)).toList.take 5 else []) ∧
      (split_atc s).level5 =
        (if 7 ≤ (pyUpper (pyStrip s)).toList.length then pyUpper (pyStrip s) else "")) ∧
    split_atc "N02BE51" = ⟨"N02BE51", "N", "N02", "N02B", "N02BE", "N02BE51"⟩ ∧
    split_atc "N02" = ⟨"N02", "N", "N02", "", "", ""⟩ ∧
    split_atc " n02be51 " = ⟨"N02BE51", "N", "N02", "N02B", "N02BE", "N02BE51"⟩ := by
  refine ⟨?_, by decide, by decide, by decide⟩
  intro s
  unfold split_atc takeChars
  dsimp only
  rw [show (pyUpper (pyStrip s)).length = (pyUpper (pyStrip s)).toList.length from rfl]
  refine ⟨rfl, ?_, ?_, ?_, ?_, ?_⟩ <;>
    · split <;> rfl

/-- C5: a table whose lower-cased column set is exactly the id, inn and
price columns classifies as compositions (the first test fires on inn
plus id) and therefore never as prices, whatever the source name says. -/
theorem claim_C5_classifier_precedence (cols0 : List String) (name : String)
    (h : (cols0.map pyLower).Perm ["id", "inn", "price"]) :
    guess_kind cols0 name = some "compositions" ∧
    guess_kind cols0 name ≠ some "prices" := by
  have hinn : (cols0.map pyLower).contains "inn" = true :=
    List.elem_iff.mpr (h.mem_iff.mpr (by simp))
  have hid : (cols0.map pyLower).contains "id" = true :=
    List.elem_iff.mpr (h.mem_iff.mpr (by simp))
  have hres : guess_kind cols0 name = some "compositions" := by
    unfold guess_kind
    rw [if_pos ⟨hinn, Or.inr (Or.inl hid)⟩]
  refine ⟨hres, by rw [hres]; simp⟩

/-- Witness for C5 at the concrete column set of the claim. -/
theorem claim_C5_witness :
    ((["id", "inn", "price"].map pyLower).Perm ["id", "inn", "price"]) ∧
    guess_kind ["id", "inn", "price"] "prices_2024.csv" = some "compositions" := by
  refine ⟨by decide, ?_⟩
  exact (claim_C5_classifier_precedence ["id", "inn", "price"] "prices_2024.csv" (by decide)).1

/-- C8 (amended): pick returns the value of the first column whose
lower-cased name is in the synonym set AND whose cell is non-NA —
NA-valued synonym columns are skipped — and the supplied default (the
empty string at the str call sites) when no such column exists. -/
theorem claim_C8_pick_first_nonnull (row : PyRow) (key : String) (dflt : Option String) :
    pick row key dflt =
      match row.find? (fun c => (COLS key).contains (pyLower c.1) && c.2.isSome) with
      | some c => c.2
      | none => dflt := by
  induction row with
  | nil => rfl
  | cons c rest ih =>
      by_cases h : ((COLS key).contains (pyLower c.1) && c.2.isSome) = true
      · rw [pick, if_pos h]
        simp only [List.find?, h]
      · rw [pick, if_neg h, ih]
        have h2 : ((COLS key).contains (pyLower c.1) && c.2.isSome) = false := by
          simpa using h
        simp only [List.find?, h2]

def c8Row : PyRow := [("id", none), ("код", some "5")]

/-- Counterexample to C8 as stated: in this row the first column whose
lower-cased name is a product_id synonym is id, which holds NA; the
spec-worded extractor (pickClaim) therefore yields that NA value, while
pick skips it and returns the value 5 of the later synonym column код —
so pick does not return the value of the first matching column. -/
theorem claim_C8_counterexample :
    pickClaim c8Row "product_id" = none ∧
    pick c8Row "product_id" (some "") = some "5" ∧
    pickClaim c8Row "product_id" ≠ pick c8Row "product_id" (some "") := by
  refine ⟨by decide, by decide, by decide⟩

/-- Witness for the amended C8 theorem at the counterexample row. -/
theorem claim_C8_witness :
    pick c8Row "product_id" (some "") =
      match c8Row.find? (fun c => (COLS "product_id").contains (pyLower c.1) && c.2.isSome) with
      | some c => c.2
      | none => some "" :=
  claim_C8_pick_first_nonnull c8Row "product_id" (some "")

theorem addKey_mem {κ : Type} [DecidableEq κ] (m : List (κ × List String)) (k0 : κ) (v : String)
    (k : κ) (pid : String) :
    (∃ kv ∈ addKey m k0 v, kv.1 = k ∧ pid ∈ kv.2) ↔
      ((∃ kv ∈ m, kv.1 = k ∧ pid ∈ kv.2) ∨ (k0 = k ∧ pid = v)) := by
  unfold addKey
  by_cases hex : m.any (fun kv => kv.1 = k0) = true
  · rw [if_pos hex]
    constructor
    · rintro ⟨kv, hkv, hk, hp⟩
      obtain ⟨kv0, hkv0, heq⟩ := List.mem_map.mp hkv
      by_cases hk0 : kv0.1 = k0
      · rw [if_pos hk0] at heq
        subst heq
        dsimp only at hk hp
        rcases List.mem_append.mp hp with hp1 | hp2
        · exact Or.inl ⟨kv0, hkv0, hk, hp1⟩
        · exact Or.inr ⟨hk0.symm.trans hk, List.mem_singleton.mp hp2⟩
      · rw [if_neg hk0] at heq
        subst heq
        exact Or.inl ⟨kv0, hkv0, hk, hp⟩
    · rintro (⟨kv, hkv, hk, hp⟩ | ⟨hkk, hpv⟩)
      · by_cases hk0 : kv.1 = k0
        · refine ⟨(kv.1, kv.2 ++ [v]), ?_, hk, List.mem_append.mpr (Or.inl hp)⟩
          have hm := List.mem_map_of_mem
            (fun kv => if kv.1 = k0 then (kv.1, kv.2 ++ [v]) else kv) hkv
          simpa [hk0] using hm
        · refine ⟨kv, ?_, hk, hp⟩
          have hm := List.mem_map_of_mem
            (fun kv => if kv.1 = k0 then (kv.1, kv.2 ++ [v]) else kv) hkv
          simpa [hk0] using hm
      · obtain ⟨kv0, hkv0, hkk0⟩ := List.any_eq_true.mp hex
        have hk0 : kv0.1 = k0 := by simpa using hkk0
        refine ⟨(kv0.1, kv0.2 ++ [v]), ?_, hk0.trans hkk,
          List.mem_append.mpr (Or.inr (by simp [hpv]))⟩
        have hm := List.mem_map_of_mem
          (fun kv => if kv.1 = k0 then (kv.1, kv.2 ++ [v]) else kv) hkv0
        simpa [hk0] using hm
  · rw [if_neg hex]
    constructor
    · rintro ⟨kv, hkv, hk, hp⟩
      rcases List.mem_append.mp hkv with h1 | h1
      · exact Or.inl ⟨kv, h1, hk, hp⟩
      · have hkv2 : kv = (k0, [v]) := List.mem_singleton.mp h1
        subst hkv2
        exact Or.inr ⟨hk, List.mem_singleton.mp hp⟩
    · rintro (⟨kv, hkv, hk, hp⟩ | ⟨hkk, hpv⟩)
      · exact ⟨kv, List.mem_append.mpr (Or.inl hkv), hk, hp⟩
      · exact ⟨(k0, [v]), List.mem_append.mpr (Or.inr (by simp)), hkk, by simp [hpv]⟩

theorem foldl_addKey_mem {κ : Type} [DecidableEq κ] (keyOf : Entry → κ) (catalog : List Entry)
    (m0 : List (κ × List String)) (k : κ) (pid : String) :
    (∃ kv ∈ catalog.foldl (fun m e => addKey m (keyOf e) e.product_id) m0,
        kv.1 = k ∧ pid ∈ kv.2) ↔
      ((∃ kv ∈ m0, kv.1 = k ∧ pid ∈ kv.2) ∨
        ∃ e ∈ catalog, keyOf e = k ∧ pid = e.product_id) := by
  induction catalog generalizing m0 with
  | nil => simp
  | cons e t ih =>
      rw [List.foldl_cons, ih, addKey_mem]
      constructor
      · rintro ((h | h) | h)
        · exact Or.inl h
        · exact Or.inr ⟨e, List.mem_cons_self e t, h.1, h.2⟩
        · obtain ⟨e2, he2, hk, hp⟩ := h
          exact Or.inr ⟨e2, List.mem_cons_of_mem e he2, hk, hp⟩
      · rintro (h | h)
        · exact Or.inl (Or.inl h)
        · obtain ⟨e2, he2, hk, hp⟩ := h
          rcases List.mem_cons.mp he2 with he3 | he3
          · subst he3
            exact Or.inl (Or.inr ⟨hk, hp⟩)
          · exact Or.inr ⟨e2, he3, hk, hp⟩

theorem addKey_keys_nodup {κ : Type} [DecidableEq κ] (m : List (κ × List String)) (k0 : κ)
    (v : String) (h : (m.map Prod.fst).Nodup) : ((addKey m k0 v).map Prod.fst).Nodup := by
  unfold addKey
  by_cases hex : m.any (fun kv => kv.1 = k0) = true
  · rw [if_pos hex]
    have heq : (m.map (fun kv => if kv.1 = k0 then (kv.1, kv.2 ++ [v]) else kv)).map Prod.fst =
        m.map Prod.fst := by
      rw [List.map_map]
      apply List.map_congr_left
      intro kv hkv
      by_cases hk : kv.1 = k0 <;> simp [hk]
    rw [heq]
    exact h
  · rw [if_neg hex, List.map_append]
    have hnotin : k0 ∉ m.map Prod.fst := by
      intro hmem
      obtain ⟨kv, hkv, hk⟩ := List.mem_map.mp hmem
      exact hex (List.any_eq_true.mpr ⟨kv, hkv, by simp [hk]⟩)
    simp [List.nodup_append, h, hnotin]

theorem foldl_addKey_keys_nodup {κ : Type} [DecidableEq κ] (keyOf : Entry → κ)
    (catalog : List Entry) (m0 : List (κ × List String)) (h : (m0.map Prod.fst).Nodup) :
    ((catalog.foldl (fun m e => addKey m (keyOf e) e.product_id) m0).map Prod.fst).Nodup := by
  induction catalog generalizing m0 with
  | nil => simpa
  | cons e t ih =>
      rw [List.foldl_cons]
      exact ih _ (addKey_keys_nodup m0 (keyOf e) e.product_id h)

theorem foldl_filterUnion_mem (m : List ((String × String) × List String)) (b pid : String)
    (acc : List String) :
    pid ∈ m.foldl (fun acc kv => if kv.1.1 = b then acc ++ kv.2 else acc) acc ↔
      pid ∈ acc ∨ ∃ kv ∈ m, kv.1.1 = b ∧ pid ∈ kv.2 := by
  induction m generalizing acc with
  | nil => simp
  | cons kv0 t ih =>
      rw [List.foldl_cons]
      by_cases hb : kv0.1.1 = b
      · rw [if_pos hb, ih]
        constructor
        · rintro (h | h)
          · rcases List.mem_append.mp h with h1 | h1
            · exact Or.inl h1
            · exact Or.inr ⟨kv0, List.mem_cons_self kv0 t, hb, h1⟩
          · obtain ⟨kv, hkv, hk, hp⟩ := h
            exact Or.inr ⟨kv, List.mem_cons_of_mem kv0 hkv, hk, hp⟩
        · rintro (h | h)
          · exact Or.inl (List.mem_append.mpr (Or.inl h))
          · obtain ⟨kv, hkv, hk, hp⟩ := h
            rcases List.mem_cons.mp hkv with he | he
            · subst he
              exact Or.inl (List.mem_append.mpr (Or.inr hp))
            · exact Or.inr ⟨kv, he, hk, hp⟩
      · rw [if_neg hb, ih]
        constructor
        · rintro (h | h)
          · exact Or.inl h
          · obtain ⟨kv, hkv, hk, hp⟩ := h
            exact Or.inr ⟨kv, List.mem_cons_of_mem kv0 hkv, hk, hp⟩
        · rintro (h | h)
          · exact Or.inl h
          · obtain ⟨kv, hkv, hk, hp⟩ := h
            rcases List.mem_cons.mp hkv with he | he
            · subst he
              exact absurd hk hb
            · exact Or.inr ⟨kv, he, hk, hp⟩

theorem tier2_mem (catalog : List Entry) (b pid : String) :
    pid ∈ tier2Match catalog b ↔
      ∃ e ∈ catalog, pylow e.trade_name = b ∧ pid = e.product_id := by
  unfold tier2Match
  rw [foldl_filterUnion_mem]
  simp only [List.not_mem_nil, false_or]
  constructor
  · rintro ⟨kv, hkv, hkb, hp⟩
    have h2 := (foldl_addKey_mem
        (fun e => (pylow e.trade_name, pylow e.dosage_form)) catalog [] kv.1 pid).mp
      (by exact ⟨kv, hkv, rfl, hp⟩)
    rcases h2 with h2 | h2
    · simp at h2
    · obtain ⟨e, he, hk, hpe⟩ := h2
      refine ⟨e, he, ?_, hpe⟩
      have : pylow e.trade_name = kv.1.1 := by rw [← hk]
      rw [this, hkb]
  · rintro ⟨e, he, hb, hp⟩
    have h2 := (foldl_addKey_mem
        (fun e => (pylow e.trade_name, pylow e.dosage_form)) catalog []
        (pylow e.trade_name, pylow e.dosage_form) pid).mpr
      (Or.inr ⟨e, he, rfl, hp⟩)
    obtain ⟨kv, hkv, hk, hpk⟩ := h2
    refine ⟨kv, hkv, ?_, hpk⟩
    rw [hk, ← hb]

theorem tier3_mem (catalog : List Entry) (b pid : String) :
    pid ∈ tier3Match catalog b ↔
      ∃ e ∈ catalog, pylow e.trade_name = b ∧ pid = e.product_id := by
  unfold tier3Match
  cases hf : (idxBrand catalog).find? (fun kv => kv.1 = b) with
  | none =>
      constructor
      · intro h
        simp at h
      · rintro ⟨e, he, hb, hp⟩
        have h2 := (foldl_addKey_mem (fun e => pylow e.trade_name) catalog []
            (pylow e.trade_name) pid).mpr (Or.inr ⟨e, he, rfl, hp⟩)
        obtain ⟨kv, hkv, hk, hpk⟩ := h2
        have h3 := List.find?_eq_none.mp hf kv (by simpa [idxBrand] using hkv)
        rw [hk, hb] at h3
        simp at h3
  | some kv =>
      have hkb : kv.1 = b := by simpa using List.find?_some hf
      have hkm : kv ∈ idxBrand catalog := List.mem_of_find?_eq_some hf
      constructor
      · intro hp
        have h2 := (foldl_addKey_mem (fun e => pylow e.trade_name) catalog [] b pid).mp
          (by exact ⟨kv, by simpa [idxBrand] using hkm, hkb, hp⟩)
        rcases h2 with h2 | h2
        · simp at h2
        · exact h2
      · rintro ⟨e, he, hb, hp⟩
        have h2 := (foldl_addKey_mem (fun e => pylow e.trade_name) catalog []
            (pylow e.trade_name) pid).mpr (Or.inr ⟨e, he, rfl, hp⟩)
        obtain ⟨kv2, hkv2, hk2, hpk2⟩ := h2
        have hnd : ((idxBrand catalog).map Prod.fst).Nodup := by
          have := foldl_addKey_keys_nodup (fun e => pylow e.trade_name) catalog []
            List.nodup_nil
          simpa [idxBrand] using this
        have hkv2m : kv2 ∈ idxBrand catalog := by simpa [idxBrand] using hkv2
        have : kv2 = kv := by
          apply List.inj_on_of_nodup_map hnd hkv2m hkm
          rw [hk2, hb, hkb]
        rw [← this]
        exact hpk2

/-- C6: tier 2 (the (brand, form) index consulted by brand only) matches
exactly the ids of the catalog entries whose canonical lower-cased brand
equals the brand of the observation — the very set tier 3 (the brand index)
would return, so on price observations the two tiers are behaviorally
identical. -/
theorem claim_C6_tier2_equals_tier3 (catalog : List Entry) (brand pid : String) :
    (pid ∈ tier2Match catalog brand ↔
      ∃ e ∈ catalog, pylow e.trade_name = brand ∧ pid = e.product_id) ∧
    (pid ∈ tier2Match catalog brand ↔ pid ∈ tier3Match catalog brand) :=
  ⟨tier2_mem catalog brand pid,
    (tier2_mem catalog brand pid).trans (tier3_mem catalog brand pid).symm⟩

theorem synthetic_id_ne_empty (h : String → String) (parts : List String) :
    synthetic_id h parts ≠ "" := by
  unfold synthetic_id
  intro hc
  have hlen := congrArg String.length hc
  rw [String.length_append] at hlen
  have h4 : ("pid_" : String).length = 4 := rfl
  have h0 : ("" : String).length = 0 := rfl
  rw [h4, h0] at hlen
  omega

theorem buildProduct_pid_eq (h : String → String) (d : Dicts) (r : PyRow) :
    (buildProduct h d r).product_id =
      (if pyStrip (pickStr r "product_id") = ""
       then synthetic_id h
        [syn d.d_brand false (pynorm (pickStr r "trade_name")),
         syn d.d_form true (pynorm (pickStr r "dosage_form")),
         pynorm (pickStr r "pack")]
       else pyStrip (pickStr r "product_id")) := rfl

theorem buildProduct_pid_ne_empty (h : String → String) (d : Dicts) (r : PyRow) :
    (buildProduct h d r).product_id ≠ "" := by
  rw [buildProduct_pid_eq]
  by_cases hp : pyStrip (pickStr r "product_id") = ""
  · rw [if_pos hp]
    exact synthetic_id_ne_empty h _
  · rw [if_neg hp]
    exact hp

theorem buildProduct_flag (h : String → String) (d : Dicts) (r : PyRow) :
    (buildProduct h d r).is_znvlp = false := rfl

theorem mem_buildProducts (h : String → String) (d : Dicts) (raw : List PyRow) (e : Entry) :
    e ∈ buildProducts h d raw ↔ ∃ r ∈ raw, buildProduct h d r = e := by
  unfold buildProducts
  rw [mem_pdDedup]
  exact List.mem_map

theorem insLe_perm {α : Type} (le : α → α → Bool) (a : α) (l : List α) :
    (insLe le a l).Perm (a :: l) := by
  induction l with
  | nil => simp [insLe]
  | cons b t ih =>
      by_cases hb : le a b = true
      · rw [insLe, if_pos hb]
      · rw [insLe, if_neg hb]
        exact (ih.cons b).trans (List.Perm.swap a b t)

theorem sortLe_perm {α : Type} (le : α → α → Bool) (l : List α) :
    (sortLe le l).Perm l := by
  induction l with
  | nil => simp [sortLe]
  | cons a t ih => exact (insLe_perm le a (sortLe le t)).trans (ih.cons a)

theorem applyZnvlp_mem (z : List PTup) (l : List Entry) (e : Entry)
    (he : e ∈ applyZnvlp z l) :
    ∃ e0 ∈ l, e.product_id = e0.product_id ∧
      e.is_znvlp = (if z.isEmpty then e0.is_znvlp
        else decide (e0.product_id ∈ z.map (fun t => t.pid))) := by
  unfold applyZnvlp at he
  by_cases hz : z.isEmpty = true
  · rw [if_pos hz] at he
    exact ⟨e, he, rfl, by rw [if_pos hz]⟩
  · rw [if_neg hz] at he
    obtain ⟨e0, he0, heq⟩ := List.mem_map.mp he
    refine ⟨e0, he0, ?_, ?_⟩
    · rw [← heq]
    · rw [← heq, if_neg hz]

theorem applyZnvlp_nodup (z : List PTup) (l : List Entry)
    (hall : ∀ x ∈ l, x.is_znvlp = false) (h : l.Nodup) : (applyZnvlp z l).Nodup := by
  unfold applyZnvlp
  by_cases hz : z.isEmpty = true
  · rw [if_pos hz]; exact h
  · rw [if_neg hz]
    refine List.Nodup.map_on ?_ h
    intro x hx y hy hxy
    have hfx := hall x hx
    have hfy := hall y hy
    cases x
    cases y
    simp only [Entry.mk.injEq] at hxy ⊢
    simp only at hfx hfy
    subst hfx
    subst hfy
    obtain ⟨h1, h2, h3, h4, h5, hf, h6, h7, h8, h9, h10, h11, h12⟩ := hxy
    exact ⟨h1, h2, h3, h4, h5, rfl, h6, h7, h8, h9, h10, h11, h12⟩

theorem esklpMain_eq_empty (h : String → String) (d : Dicts) (floatOk : String → Bool)
    (parse : String → Option Nat) (today : String) (rawP rawI rawZ : List PyRow)
    (hP : (buildProducts h d rawP).isEmpty = true) :
    esklpMain h d floatOk parse today rawP rawI rawZ = ⟨1, [], [], [], []⟩ := by
  unfold esklpMain
  rw [if_pos hP]

theorem esklpMain_eq_nonempty (h : String → String) (d : Dicts) (floatOk : String → Bool)
    (parse : String → Option Nat) (today : String) (rawP rawI rawZ : List PyRow)
    (hP : ¬(buildProducts h d rawP).isEmpty = true) :
    esklpMain h d floatOk parse today rawP rawI rawZ =
      ⟨0,
        sortLe pLeB (applyZnvlp
          (dedupPrices parse
            (matchedTuples (buildProducts h d rawP) (buildZRaw floatOk today rawZ)))
          (buildProducts h d rawP)),
        sortLe iLeB (buildIngredients d rawI),
        sortLe zPidLeB (dedupPrices parse
          (matchedTuples (buildProducts h d rawP) (buildZRaw floatOk today rawZ))),
        sortLe aLeB (pdDedup ((applyZnvlp
          (dedupPrices parse
            (matchedTuples (buildProducts h d rawP) (buildZRaw floatOk today rawZ)))
          (buildProducts h d rawP)).map atcRowOf))⟩ := by
  unfold esklpMain
  rw [if_neg hP]

theorem buildProducts_flags (h : String → String) (d : Dicts) (raw : List PyRow) :
    ∀ x ∈ buildProducts h d raw, x.is_znvlp = false := by
  intro x hx
  obtain ⟨r, hr, hbe⟩ := (mem_buildProducts h d raw x).mp hx
  rw [← hbe]
  exact buildProduct_flag h d r

theorem loadProductsU_pid_ne (recs : List URecP) (e : Entry) (he : e ∈ loadProductsU recs) :
    e.product_id ≠ "" := by
  unfold loadProductsU at he
  obtain ⟨ir, hir, heq⟩ := List.mem_map.mp he
  rw [← heq]
  dsimp only
  by_cases hu : orEmpty ir.2.uid = ""
  · rw [if_pos hu]
    intro hc
    have hlen := congrArg String.length hc
    rw [String.length_append] at hlen
    have h6 : ("esklp_" : String).length = 6 := rfl
    have h0 : ("" : String).length = 0 := rfl
    rw [h6, h0] at hlen
    omega
  · rw [if_neg hu]
    exact hu

/-- C1 (amended): every product_id of the Products artifact is non-empty
(in both scripts), and the artifact holds no two fully identical rows
(the pandas full-row drop_duplicates); uniqueness of product_id itself is
not guaranteed — see the counterexample. -/
theorem claim_C1_ids_nonempty_rows_distinct :
    (∀ (h : String → String) (d : Dicts) (floatOk : String → Bool)
        (parse : String → Option Nat) (today : String) (rawP rawI rawZ : List PyRow),
      (∀ e ∈ (esklpMain h d floatOk parse today rawP rawI rawZ).products,
        e.product_id ≠ "") ∧
      (esklpMain h d floatOk parse today rawP rawI rawZ).products.Nodup) ∧
    (∀ (recs : List URecP), ∀ e ∈ loadProductsU recs, e.product_id ≠ "") := by
  constructor
  · intro h d floatOk parse today rawP rawI rawZ
    by_cases hP : (buildProducts h d rawP).isEmpty = true
    · rw [esklpMain_eq_empty h d floatOk parse today rawP rawI rawZ hP]
      exact ⟨fun e he => absurd he (List.not_mem_nil e), List.nodup_nil⟩
    · rw [esklpMain_eq_nonempty h d floatOk parse today rawP rawI rawZ hP]
      dsimp only
      constructor
      · intro e he
        have he2 := (mem_sortLe pLeB _ e).mp he
        obtain ⟨e0, he0, hpid, _⟩ := applyZnvlp_mem _ _ _ he2
        obtain ⟨r, hr, hbe⟩ := (mem_buildProducts h d rawP e0).mp he0
        rw [hpid, ← hbe]
        exact buildProduct_pid_ne_empty h d r
      · refine ((sortLe_perm pLeB _).nodup_iff).mpr ?_
        exact applyZnvlp_nodup _ _ (buildProducts_flags h d rawP) (pdDedup_nodup _)
  · exact fun recs e he => loadProductsU_pid_ne recs e he

def hashC : String → String := fun _ => ""

def dictsC : Dicts := ⟨[], [], [], []⟩

def parseC : String → Option Nat := fun _ => none

def floatC : String → Bool := fun s => !s.toList.isEmpty && s.toList.all (fun c => c.isDigit)

def c1Raw : List PyRow :=
  [[("id", some "A"), ("tn", some "X")], [("id", some "A"), ("tn", some "Y")]]

/-- Counterexample to C1 as stated: two source rows share the explicit id
A but differ in trade name, so the full-row drop_duplicates keeps both and
the Products artifact carries the product_id A twice. -/
theorem claim_C1_counterexample :
    ((esklpMain hashC dictsC floatC parseC "" c1Raw [] []).products.map
      (fun e => e.product_id)) = ["A", "A"] ∧
    ¬((esklpMain hashC dictsC floatC parseC "" c1Raw [] []).products.map
      (fun e => e.product_id)).Nodup := by
  refine ⟨by decide, by decide⟩

/-- Witness for the amended C1 theorem at the counterexample run. -/
theorem claim_C1_witness :
    (∀ e ∈ (esklpMain hashC dictsC floatC parseC "" c1Raw [] []).products,
      e.product_id ≠ "") ∧
    (esklpMain hashC dictsC floatC parseC "" c1Raw [] []).products.Nodup :=
  claim_C1_ids_nonempty_rows_distinct.1 hashC dictsC floatC parseC "" c1Raw [] []

/-- C4: after reconciliation the is_znvlp flag of an entry is true exactly when its
product_id appears in the final deduplicated price table; entries are
built with the flag False, so nothing from any earlier run contributes. -/
theorem claim_C4_znvlp_flag (h : String → String) (d : Dicts) (floatOk : String → Bool)
    (parse : String → Option Nat) (today : String) (rawP rawI rawZ : List PyRow) :
    ∀ e ∈ (esklpMain h d floatOk parse today rawP rawI rawZ).products,
      (e.is_znvlp = true ↔
        e.product_id ∈ (esklpMain h d floatOk parse today rawP rawI rawZ).prices.map
          (fun t => t.pid)) := by
  by_cases hP : (buildProducts h d rawP).isEmpty = true
  · rw [esklpMain_eq_empty h d floatOk parse today rawP rawI rawZ hP]
    intro e he
    exact absurd he (List.not_mem_nil e)
  · rw [esklpMain_eq_nonempty h d floatOk parse today rawP rawI rawZ hP]
    intro e he
    dsimp only at he ⊢
    have he2 := (mem_sortLe pLeB _ e).mp he
    obtain ⟨e0, he0, hpid, hflag⟩ := applyZnvlp_mem _ _ _ he2
    have hflag0 : e0.is_znvlp = false := buildProducts_flags h d rawP e0 he0
    by_cases hz :
        (dedupPrices parse
          (matchedTuples (buildProducts h d rawP) (buildZRaw floatOk today rawZ))).isEmpty = true
    · rw [if_pos hz] at hflag
      rw [hflag, hflag0]
      constructor
      · intro hfalse
        exact absurd hfalse (by simp)
      · intro hmem
        obtain ⟨t, ht, hteq⟩ := List.mem_map.mp hmem
        have ht2 := (mem_sortLe zPidLeB _ t).mp ht
        rw [List.isEmpty_iff.mp hz] at ht2
        exact absurd ht2 (List.not_mem_nil t)
    · rw [if_neg hz] at hflag
      rw [hflag, hpid]
      simp only [decide_eq_true_eq]
      constructor
      · intro hm
        obtain ⟨t, ht, hteq⟩ := List.mem_map.mp hm
        exact List.mem_map.mpr ⟨t, (mem_sortLe zPidLeB _ t).mpr ht, hteq⟩
      · intro hm
        obtain ⟨t, ht, hteq⟩ := List.mem_map.mp hm
        exact List.mem_map.mpr ⟨t, (mem_sortLe zPidLeB _ t).mp ht, hteq⟩

def c4RawP : List PyRow := [[("id", some "A"), ("tn", some "X")]]

def c4Item : Entry := ⟨"A", "X", "", "", "", false, "", "", "", "", "", "", ""⟩

/-- Witness for C4 at a run with no price rows: the single entry keeps
is_znvlp false and its id is indeed absent from the (empty) price table. -/
theorem claim_C4_witness :
    c4Item ∈ (esklpMain hashC dictsC floatC parseC "" c4RawP [] []).products ∧
    (c4Item.is_znvlp = true ↔
      c4Item.product_id ∈ (esklpMain hashC dictsC floatC parseC "" c4RawP [] []).prices.map
        (fun t => t.pid)) :=
  ⟨by decide, claim_C4_znvlp_flag hashC dictsC floatC parseC "" c4RawP [] [] c4Item (by decide)⟩

theorem loadPricesU_ok (floatOk isZero : String → Bool) (today : String) (recs : List URecZ)
    (h : ∀ r ∈ recs, floatOk (commaDot (if orEmpty r.price_rub = "" then "0"
      else orEmpty r.price_rub)) = true) :
    loadPricesU floatOk isZero today recs =
      Except.ok (loadPricesList floatOk isZero today recs) := by
  induction recs with
  | nil => rfl
  | cons r t ih =>
      have hl := ih (fun x hx => h x (List.mem_cons_of_mem r hx))
      have hr := h r (List.mem_cons_self r t)
      rw [loadPricesU, if_pos hr, hl]
      dsimp only
      rw [loadPricesList, if_pos hr]
      by_cases hz : isZero (commaDot (if orEmpty r.price_rub = "" then "0"
          else orEmpty r.price_rub)) = true
      · rw [if_pos hz, if_pos hz]
      · rw [if_neg hz, if_neg hz]

/-- C9 (amended): the esklp_update core exits non-zero exactly when the
Products artifact would be empty, with all in-core anomalies absorbed; in
update_data, even when every price value parses, the run exits non-zero
exactly when the products frame is empty OR the reconciled price output
is empty (the unguarded sort_values on the column-less empty frame then
raises an uncaught KeyError), and a malformed price aborts it non-zero
regardless of the products. -/
theorem claim_C9_exit_policy (h : String → String) (d : Dicts) (floatOk : String → Bool)
    (parse : String → Option Nat) (today : String) (rawP rawI rawZ : List PyRow)
    (isZero : String → Bool) (recsP : List URecP) (recsZ : List URecZ) :
    ((esklpMain h d floatOk parse today rawP rawI rawZ).exitCode ≠ 0 ↔
      buildProducts h d rawP = []) ∧
    ((∀ r ∈ recsZ, floatOk (commaDot (if orEmpty r.price_rub = "" then "0"
        else orEmpty r.price_rub)) = true) →
      (updExit floatOk isZero today recsP recsZ ≠ 0 ↔
        (loadProductsU recsP = [] ∨
          updPriceOut (loadProductsU recsP)
            (loadPricesList floatOk isZero today recsZ) = []))) := by
  constructor
  · by_cases hP : (buildProducts h d rawP).isEmpty = true
    · rw [esklpMain_eq_empty h d floatOk parse today rawP rawI rawZ hP]
      simp [List.isEmpty_iff.mp hP]
    · rw [esklpMain_eq_nonempty h d floatOk parse today rawP rawI rawZ hP]
      have hne : buildProducts h d rawP ≠ [] := by
        intro hc
        exact hP (by simp [hc])
      simp [hne]
  · intro hall
    have hl := loadPricesU_ok floatOk isZero today recsZ hall
    unfold updExit
    rw [hl]
    dsimp only
    by_cases hp2 : (loadProductsU recsP).isEmpty = true
    · rw [if_pos hp2]
      simp [List.isEmpty_iff.mp hp2]
    · rw [if_neg hp2]
      have hne : loadProductsU recsP ≠ [] := by
        intro hc
        exact hp2 (by simp [hc])
      by_cases hq : (updPriceOut (loadProductsU recsP)
          (loadPricesList floatOk isZero today recsZ)).isEmpty = true
      · rw [if_pos hq]
        simp [hne, List.isEmpty_iff.mp hq]
      · rw [if_neg hq]
        have hqe : updPriceOut (loadProductsU recsP)
            (loadPricesList floatOk isZero today recsZ) ≠ [] := by
          intro hc
          exact hq (by simp [hc])
        simp [hne, hqe]

def c9P : List URecP := [⟨some "p1", some "X", none, none, none, none, none, none⟩]

def c9ZBad : List URecZ := [⟨some "p1", some "X", some "abc", none⟩]

def c9ZOk : List URecZ := [⟨some "p1", some "X", some "5", none⟩]

/-- Counterexample to C9 as stated: in update_data the malformed price
value abc aborts the run non-zero (CPython float raises ValueError
outside any try) although products are non-empty; and even with NO price
records at all — nothing unparseable anywhere — the unguarded
sort_values on the empty df_prices_out frame raises KeyError, again a
non-zero exit with a non-empty Products artifact. -/
theorem claim_C9_counterexample :
    updExit floatC (fun _ => false) "" c9P c9ZBad = 1 ∧
    updExit floatC (fun _ => false) "" c9P [] = 1 ∧
    loadProductsU c9P ≠ [] := by
  refine ⟨by decide, by decide, by decide⟩

/-- Witness for the amended C9 theorem: with one parseable price credited
to an explicit id, update_data exits 0 because neither the products frame
nor the price output is empty, and the esklp core exit tracks emptiness
of its products. -/
theorem claim_C9_witness :
    ((esklpMain hashC dictsC floatC parseC "" c1Raw [] []).exitCode ≠ 0 ↔
      buildProducts hashC dictsC c1Raw = []) ∧
    (updExit floatC (fun _ => false) "" c9P c9ZOk ≠ 0 ↔
      (loadProductsU c9P = [] ∨
        updPriceOut (loadProductsU c9P)
          (loadPricesList floatC (fun _ => false) "" c9ZOk) = [])) :=
  ⟨(claim_C9_exit_policy hashC dictsC floatC parseC "" c1Raw [] []
      (fun _ => false) c9P c9ZOk).1,
   (claim_C9_exit_policy hashC dictsC floatC parseC "" c1Raw [] []
      (fun _ => false) c9P c9ZOk).2 (by decide)⟩

def c10Row : PyRow := [("тн", some "Аспирин"), ("мнн", some "Acid")]

def c10Catalog : List Entry :=
  [⟨"p1", "Br", "t", "", "", false, "", "", "", "", "", "", ""⟩]

/-- C10: when the product_id synonym columns of a composition row yield nothing
(or only an empty value after strip), the emitted IngredientRecord gets
the raw trade_name value of the row as its product_id; a row whose trade-name
fallback and inn are both empty is dropped; and concretely such a record
can carry a trade name that no CatalogEntry id matches (an orphan). -/
theorem claim_C10_composition_fallback :
    (∀ (d : Dicts) (r : PyRow), pyStrip (pickStr r "product_id") = "" →
      (∀ rec, compRow d r = some rec → rec.product_id = pickStr r "trade_name") ∧
      ((pickStr r "trade_name" = "" ∧ syn d.d_inn true (pylow (pickStr r "inn")) = "") →
        compRow d r = none)) ∧
    (compRow dictsC c10Row = some ⟨"Аспирин", "acid", "", ""⟩ ∧
      "Аспирин" ∉ c10Catalog.map (fun e => e.product_id)) := by
  constructor
  · intro d r h
    constructor
    · intro rec hrec
      simp only [compRow, h, if_pos] at hrec
      by_cases hc : pickStr r "trade_name" ≠ "" ∧ syn d.d_inn true (pylow (pickStr r "inn")) ≠ ""
      · rw [if_pos hc] at hrec
        obtain rfl : _ = rec := by simpa using hrec
        rfl
      · rw [if_neg hc] at hrec
        exact absurd hrec (by simp)
    · rintro ⟨htn, hinn⟩
      simp only [compRow, h, if_pos]
      rw [if_neg]
      rintro ⟨hpid, _⟩
      exact hpid htn
  · exact ⟨by decide, by decide⟩

/-- Witness for C10 at the concrete orphan row. -/
theorem claim_C10_witness :
    pyStrip (pickStr c10Row "product_id") = "" ∧
    (∀ rec, compRow dictsC c10Row = some rec →
      rec.product_id = pickStr c10Row "trade_name") :=
  ⟨by decide,
   ((claim_C10_composition_fallback.1 dictsC c10Row (by decide)).1)⟩
